import Mathlib

/-!
# Log handlers of `web/logs.go`

A shallow embedding of the three HTTP handlers of `web/logs.go`
(`fetchLogsBetweenDates`, `downloadLogs`, `streamLogs`) and of the pieces of
the Go standard library they call, followed by the properties of the event
stream they produce.

Go strings are byte strings; they are embedded as lists of characters.  Every
string operation the handlers use (concatenation, search for the ASCII space,
slicing at the index found) acts the same way on both.
-/

namespace Web

set_option maxRecDepth 100000

/-- A Go `string`. -/
abbrev Bytes := List Char

/-! ## Standard library: `strings`, `time`, `bufio` -/

/-- Go `strings.IndexAny(s, chars)`: index of the first character of `s`
that occurs in `chars`; `none` stands for the result `-1`. -/
def IndexAny (s chars : Bytes) : Option Nat :=
  match s with
  | [] => none
  | c :: cs =>
    if c ∈ chars then some 0
    else match IndexAny cs chars with
      | some i => some (i + 1)
      | none => none

/-- Go `isDigit(s, i)` of package `time`: the byte at `i` exists and is a
decimal digit. -/
def isDigit (s : Bytes) (i : Nat) : Bool :=
  match s.get? i with
  | some c => decide ('0' ≤ c) && decide (c ≤ '9')
  | none => false

/-- Value of a decimal digit. -/
def digitVal (c : Char) : Nat := c.toNat - '0'.toNat

/-- Go `getnum(s, fixed)` of package `time`: a one or two digit number at the
head of `s` (exactly two digits when `fixed`), with the rest of `s`. -/
def getnum (s : Bytes) (fixed : Bool) : Option (Nat × Bytes) :=
  if !isDigit s 0 then none
  else if !isDigit s 1 then
    if fixed then none
    else match s with
      | c :: rest => some (digitVal c, rest)
      | [] => none
  else match s with
    | c :: d :: rest => some (digitVal c * 10 + digitVal d, rest)
    | _ => none

/-- Go `skip(value, prefix)` of package `time` for a one-character literal
of the layout that is not a space: the literal must be next. -/
def skip (value : Bytes) (lit : Char) : Option Bytes :=
  match value with
  | c :: rest => if c = lit then some rest else none
  | [] => none

/-- Go `isLeap(year)`. -/
def isLeap (year : Nat) : Bool :=
  year % 4 == 0 && (year % 100 != 0 || year % 400 == 0)

/-- Go `daysIn(month, year)`. -/
def daysIn (month year : Nat) : Nat :=
  if month == 2 then (if isLeap year then 29 else 28)
  else if month == 4 || month == 6 || month == 9 || month == 11 then 30
  else 31

/-- Go `commaOrPeriod(b)`. -/
def commaOrPeriod (c : Char) : Bool := c == '.' || c == ','

/-- The layout element `.999999999`: an optional fractional second, a
separator followed by at least one digit, all following digits consumed. -/
def skipFracSecond (value : Bytes) : Bytes :=
  match value with
  | c :: rest =>
    if commaOrPeriod c && isDigit rest 0 then rest.dropWhile (fun d => decide ('0' ≤ d) && decide (d ≤ '9'))
    else value
  | [] => value

/-- The layout element `Z07:00`: either `Z`, or a sign, two digits, a colon
and two digits, with hour at most 24 and minute at most 60. -/
def skipZone (value : Bytes) : Option Bytes :=
  match value with
  | 'Z' :: rest => some rest
  | sign :: h1 :: h2 :: colon :: m1 :: m2 :: rest =>
    if colon ≠ ':' then none
    else match getnum [h1, h2] true, getnum [m1, m2] true with
      | some (hr, _), some (mm, _) =>
        if hr > 24 || mm > 60 then none
        else if sign = '+' || sign = '-' then some rest
        else none
      | _, _ => none
  | _ => none

/-- Go `time.Parse(time.RFC3339Nano, value)` returns a nil error.  The layout
is `2006-01-02T15:04:05.999999999Z07:00`; the function follows the layout
driven parser of package `time` element by element: a four digit year, a two
digit month in 1..12, a two digit day, an hour of one or two digits below 24,
two digit minute and second below 60, the optional fraction, the zone, no
text left over, and a day that exists in the month. -/
def timeParseRFC3339Nano (value : Bytes) : Bool :=
  match value with
  | y1 :: y2 :: y3 :: y4 :: v1 =>
    if !(isDigit [y1, y2, y3, y4] 0 && isDigit [y1, y2, y3, y4] 1
          && isDigit [y1, y2, y3, y4] 2 && isDigit [y1, y2, y3, y4] 3) then false
    else
      let year := ((digitVal y1 * 10 + digitVal y2) * 10 + digitVal y3) * 10 + digitVal y4
      match (skip v1 '-').bind (fun v => getnum v true) with
      | none => false
      | some (month, v2) =>
        if month == 0 || 12 < month then false
        else match (skip v2 '-').bind (fun v => getnum v true) with
          | none => false
          | some (day, v3) =>
            match (skip v3 'T').bind (fun v => getnum v false) with
            | none => false
            | some (hour, v4) =>
              if 24 ≤ hour then false
              else match (skip v4 ':').bind (fun v => getnum v true) with
                | none => false
                | some (min, v5) =>
                  if 60 ≤ min then false
                  else match (skip v5 ':').bind (fun v => getnum v true) with
                    | none => false
                    | some (sec, v6) =>
                      if 60 ≤ sec then false
                      else match skipZone (skipFracSecond v6) with
                        | some [] => decide (1 ≤ day) && decide (day ≤ daysIn month year)
                        | _ => false
  | _ => false

/-- Go `error` values, as far as the handlers tell them apart. -/
inductive GoError
  | EOF
  | Canceled
  | other (msg : Bytes)
  deriving DecidableEq

/-- Go `err.Error()`. -/
def GoError.Error : GoError → Bytes
  | .EOF => "EOF".toList
  | .Canceled => "context canceled".toList
  | .other msg => msg

/-- The byte stream behind an `io.ReadCloser` handed out by the Log Source,
for a session that ends: the bytes it delivers, then the error its reads
report once those bytes are used up (`io.EOF` when the process ended,
`context.Canceled` when the request was cancelled, or a failure). -/
structure Reader where
  data : Bytes
  err : GoError
  deriving DecidableEq

/-- The part of `s` up to and including the first `delim`, and what follows
it; `none` when `delim` does not occur. -/
def splitDelim (delim : Char) : Bytes → Option (Bytes × Bytes)
  | [] => none
  | c :: cs =>
    if c = delim then some ([c], cs)
    else match splitDelim delim cs with
      | some (line, rest) => some (c :: line, rest)
      | none => none

/-- Go `(*bufio.Reader).ReadString(delim)`: the data up to and including the
first `delim`; when the input ends before a `delim`, the data read before the
error together with the error.  Third component: the reader afterwards. -/
def ReadString (b : Reader) (delim : Char) : Bytes × Option GoError × Reader :=
  match splitDelim delim b.data with
  | some (line, rest) => (line, none, { b with data := rest })
  | none => (b.data, some b.err, { b with data := [] })

/-! ## The handlers' surroundings -/

/-- A symbolic `time.Time`: the handlers only pass times on to the Log
Source. -/
inductive Time
  | zero
  | parsed (text : Bytes)
  | unix (sec : Int)
  | now
  deriving DecidableEq

/-- Go `url.Values` and `http.Header`: the values stored under each key. -/
abbrev Values := Bytes → List Bytes

/-- Go `Values.Get(key)` / `Header.Get(key)`: the first value stored under
`key`, the empty string when there is none. -/
def Values.Get (v : Values) (key : Bytes) : Bytes :=
  match v key with
  | [] => []
  | x :: _ => x

/-- The parts of `*http.Request` the handlers read. -/
structure Request where
  Query : Values
  Header : Values

/-- The `http.ResponseWriter`: whether it also implements `http.Flusher`. -/
structure ResponseWriter where
  Flusher : Bool

/-- A container as returned by `FindContainer`. -/
structure Container where
  ID : Bytes
  Name : Bytes
  Created : Int

/-- The docker client behind `h.client`.  Each call returns the Go pair
(value, error). -/
structure Client where
  FindContainer : Bytes → Container × Option GoError
  ContainerLogs : Bytes → Nat → Bytes → Option Reader × Option GoError
  ContainerLogsBetweenDates : Bytes → Time → Time → Option Reader × Option GoError

structure Config where
  TailSize : Nat

structure handler where
  client : Client
  config : Config

/-- Standard library functions taken as given: whether `time.Parse` accepts a
value under the layouts `time.RFC3339` and `time.RFC3339Nano`, and the text of
`time.Now().Format("2006-01-02T15-04-05")`. -/
structure Runtime where
  ParseRFC3339 : Bytes → Bool
  ParseRFC3339Nano : Bytes → Bool
  NowStamp : Bytes

/-- The Go runtime: `time.Parse` as modelled above.  With the layout
`time.RFC3339` the parser accepts the same values, since a fraction after the
seconds is accepted even when the layout has none. -/
def goRuntime (stamp : Bytes) : Runtime :=
  { ParseRFC3339 := timeParseRFC3339Nano
    ParseRFC3339Nano := timeParseRFC3339Nano
    NowStamp := stamp }

/-- What a handler does, in order: its operations on the response writer, on
the Log Source and on the streams it holds. -/
inductive Effect
  | setHeader (key value : Bytes)
  | addHeader (key value : Bytes)
  | httpError (msg : Bytes) (code : Nat)
  | write (b : Bytes)
  | flush
  | containerLogs (id : Bytes) (tail : Nat) (since : Bytes)
  | containerLogsBetweenDates (id : Bytes) (src dst : Time)
  | copy (b : Bytes)
  | gzipCopy (name : Bytes) (b : Bytes)
  | gzipClose
  | tickerStop
  | close
  deriving DecidableEq

/-- How a handler run ends: it returns, a run-time panic unwinds it, or it is
still in its loop when the step budget is used up. -/
inductive Outcome
  | returned
  | panicked
  | running
  deriving DecidableEq

structure Run where
  trace : List Effect
  outcome : Outcome
  deriving DecidableEq

/-- Bytes of the response body.  `http.Error` writes the message and a
newline; the gzip stream is not spelled out. -/
def body : List Effect → Bytes
  | [] => []
  | .write b :: t => b ++ body t
  | .copy b :: t => b ++ body t
  | .httpError msg _ :: t => msg ++ ['\n'] ++ body t
  | _ :: t => body t

/-- Status code of the response: the code of `http.Error`, or 200 from the
first write; `none` while nothing was sent. -/
def status : List Effect → Option Nat
  | [] => none
  | .httpError _ code :: _ => some code
  | .write _ :: _ => some 200
  | .copy _ :: _ => some 200
  | .gzipCopy _ _ :: _ => some 200
  | .gzipClose :: _ => some 200
  | _ :: t => status t

/-- Number of `Close` calls on the log byte stream. -/
def closes (t : List Effect) : Nat := t.count .close

/-! ## `fetchLogsBetweenDates` -/

/-- Go `t, _ := time.Parse(time.RFC3339, s)`: the zero time when `s` is
rejected. -/
def parseOrZero (rt : Runtime) (s : Bytes) : Time :=
  if rt.ParseRFC3339 s then .parsed s else .zero

/-- The handler `fetchLogsBetweenDates`.  `defer reader.Close()` is executed
before the error is looked at; with a nil `reader` the method value cannot be
taken and the statement panics. -/
def fetchLogsBetweenDates (rt : Runtime) (h : handler) (r : Request) : Run :=
  let hdr := [Effect.setHeader "Content-Type".toList "text/plain; charset=UTF-8".toList]
  let src := parseOrZero rt (r.Query.Get "from".toList)
  let dst := parseOrZero rt (r.Query.Get "to".toList)
  let id := r.Query.Get "id".toList
  let call := Effect.containerLogsBetweenDates id src dst
  match h.client.ContainerLogsBetweenDates id src dst with
  | (none, _) => ⟨hdr ++ [call], .panicked⟩
  | (some _, some err) =>
    ⟨hdr ++ [call, .httpError err.Error 500, .close], .returned⟩
  | (some reader, none) =>
    ⟨hdr ++ [call, .copy reader.data, .close], .returned⟩

/-! ## `downloadLogs` -/

/-- The handler `downloadLogs`.  Only the gzip writer is closed on return. -/
def downloadLogs (rt : Runtime) (h : handler) (r : Request) : Run :=
  let id := r.Query.Get "id".toList
  match h.client.FindContainer id with
  | (_, some err) => ⟨[.httpError err.Error 400], .returned⟩
  | (container, none) =>
    let src := Time.unix container.Created
    let name := container.Name ++ "-".toList ++ rt.NowStamp
    let hdr := [Effect.setHeader "Content-Disposition".toList
                  ("attachment; filename=".toList ++ name ++ ".log.gz".toList),
                Effect.setHeader "Content-Type".toList "application/gzip".toList]
    let call := Effect.containerLogsBetweenDates container.ID src .now
    match h.client.ContainerLogsBetweenDates container.ID src .now with
    | (_, some err) =>
      ⟨hdr ++ [call, .httpError err.Error 500, .gzipClose], .returned⟩
    | (none, none) => ⟨hdr ++ [call, .gzipClose], .panicked⟩
    | (some reader, none) =>
      ⟨hdr ++ [call, .gzipCopy (name ++ ".log".toList) reader.data, .gzipClose], .returned⟩

/-! ## `streamLogs` -/

/-- The terminal frame. -/
def containerStopped : Bytes := "event: container-stopped\ndata: end of stream\n\n".toList

/-- The resume marker of a request (lines 91-94). -/
def lastEventId (r : Request) : Bytes :=
  let lastEventId := r.Header.Get "Last-Event-ID".toList
  if (r.Query.Get "lastEventId".toList).length > 0 then r.Query.Get "lastEventId".toList
  else lastEventId

/-- The `id:` write of one pass of the loop (lines 129-134): made when the
message holds a space and the text before the first space is accepted by
`time.Parse(time.RFC3339Nano, ·)`. -/
def idWrite (rt : Runtime) (message : Bytes) : List Effect :=
  match IndexAny message " ".toList with
  | some index =>
    let id := message.take index
    if rt.ParseRFC3339Nano id then [.write ("id: ".toList ++ id ++ "\n".toList)] else []
  | none => []

/-- The writes of one pass of the loop for the message just read (lines
128-136). -/
def frameWrites (rt : Runtime) (message : Bytes) : List Effect :=
  [.write ("data: ".toList ++ message)] ++ idWrite rt message ++ [.write "\n".toList, .flush]

/-- The framing loop (lines 126-140): read a message, write its frame, and
leave the loop when the read reported an error.  The result is what was
written and the error that ended the loop; `none` when the loop is still
running after `fuel` passes. -/
def framingLoop (rt : Runtime) : Nat → Reader → List Effect × Option GoError
  | 0, _ => ([], none)
  | fuel + 1, buffered =>
    match ReadString buffered '\n' with
    | (message, some readerError, _) => (frameWrites rt message, some readerError)
    | (message, none, buffered') =>
      let rest := framingLoop rt fuel buffered'
      (frameWrites rt message ++ rest.1, rest.2)

/-- What the handler does once the loop has ended with `readerError` (lines
144-150) and on return (the deferred `ticker.Stop()` and `reader.Close()`). -/
def afterLoop (readerError : GoError) : List Effect :=
  (if readerError = .EOF then [.write containerStopped, .flush] else [])
    ++ [.tickerStop, .close]

/-- The response headers of the event stream (lines 85-89). -/
def streamHeaders : List Effect :=
  [.setHeader "Content-Type".toList "text/event-stream".toList,
   .setHeader "Cache-Control".toList "no-transform".toList,
   .addHeader "Cache-Control".toList "no-cache".toList,
   .setHeader "Connection".toList "keep-alive".toList,
   .setHeader "X-Accel-Buffering".toList "no".toList]

/-- The handler from line 106 on, once the log byte stream is open: the loop
over the stream, the terminal frame and the deferred calls.  One pass per byte
of the stream and one more are enough for the loop to end. -/
def streamFrom (rt : Runtime) (reader : Reader) : Run :=
  match framingLoop rt (reader.data.length + 1) reader with
  | (ops, some readerError) => ⟨ops ++ afterLoop readerError, .returned⟩
  | (ops, none) => ⟨ops, .running⟩

/-- The handler `streamLogs`, without the keepalive task it starts (see
`keepalive`).  Log output of the handler is left out. -/
def streamLogs (rt : Runtime) (h : handler) (w : ResponseWriter) (r : Request) : Run :=
  let id := r.Query.Get "id".toList
  if id = [] then ⟨[.httpError "id is required".toList 400], .returned⟩
  else if !w.Flusher then ⟨[.httpError "Streaming unsupported!".toList 500], .returned⟩
  else
    match h.client.FindContainer id with
    | (_, some err) => ⟨[.httpError err.Error 404], .returned⟩
    | (container, none) =>
      let call := Effect.containerLogs container.ID h.config.TailSize (lastEventId r)
      match h.client.ContainerLogs container.ID h.config.TailSize (lastEventId r) with
      | (_, some err) =>
        if err = .EOF then
          ⟨streamHeaders ++ [call, .write containerStopped, .flush], .returned⟩
        else ⟨streamHeaders ++ [call, .httpError err.Error 500], .returned⟩
      | (none, none) => ⟨streamHeaders ++ [call], .panicked⟩
      | (some reader, none) =>
        ⟨streamHeaders ++ [call] ++ (streamFrom rt reader).trace, (streamFrom rt reader).outcome⟩

/-- What the keepalive task receives in its `select`. -/
inductive Signal
  | done
  | tick
  deriving DecidableEq

/-- The keepalive task (lines 111-121): on each tick write the ping frame and
flush; return when the request context is done. -/
def keepalive : List Signal → List Effect
  | [] => []
  | .done :: _ => []
  | .tick :: rest => .write ":ping \n\n".toList :: .flush :: keepalive rest

/-- The list `merged` is an interleaving of `xs` and `ys`: both in their own
order, nothing else. -/
def isInterleaving {α : Type} [DecidableEq α] : List α → List α → List α → Bool
  | [], xs, ys => xs.isEmpty && ys.isEmpty
  | z :: zs, xs, ys =>
    (match xs with
      | x :: xs' => decide (x = z) && isInterleaving zs xs' ys
      | [] => false) ||
    (match ys with
      | y :: ys' => decide (y = z) && isInterleaving zs xs ys'
      | [] => false)

/-! ## Examples -/

/-- The two log lines of the running example. -/
def helloWorld : Bytes :=
  "2024-01-01T00:00:00.000000001Z hello\n2024-01-01T00:00:00.000000002Z world\n".toList

/-- A client that knows the container `abc123` and answers every request
for a log stream with `logs`. -/
def sampleClient (logs : Option Reader × Option GoError) : Client :=
  { FindContainer := fun id =>
      if id = "abc123".toList then (⟨"abc123".toList, "web".toList, 1704067200⟩, none)
      else (⟨[], [], 0⟩, some (.other "no such container".toList))
    ContainerLogs := fun _ _ _ => logs
    ContainerLogsBetweenDates := fun _ _ _ => logs }

/-- A request with the given query and header values. -/
def sampleRequest (query header : List (Bytes × Bytes)) : Request :=
  { Query := fun k => (query.filter (fun p => p.1 = k)).map Prod.snd
    Header := fun k => (header.filter (fun p => p.1 = k)).map Prod.snd }

/-- A handler over `sampleClient` with a tail size of 300. -/
def sampleHandler (logs : Option Reader × Option GoError) : handler :=
  { client := sampleClient logs, config := { TailSize := 300 } }

/-- The request `?id=abc123`. -/
def plainRequest : Request := sampleRequest [("id".toList, "abc123".toList)] []

/-- The request `?id=abc123&lastEventId=` sent with the header
`Last-Event-ID: 2024-01-01T00:00:00.000000001Z`. -/
def emptyMarkerRequest : Request :=
  sampleRequest [("id".toList, "abc123".toList), ("lastEventId".toList, [])]
    [("Last-Event-ID".toList, "2024-01-01T00:00:00.000000001Z".toList)]

/-- A complete log line: it ends in a newline and holds no other. -/
def completeLine : Bytes → Bool
  | [] => false
  | [c] => c == '\n'
  | c :: cs => c != '\n' && completeLine cs

/-- The leading token in the words of the specification: the text of a line
before its first whitespace character. -/
def specLeadingToken : Bytes → Option Bytes
  | [] => none
  | c :: cs => if c.isWhitespace then some [] else (specLeadingToken cs).map (fun t => c :: t)

/-- The lines of a text: the pieces between its newlines. -/
def splitLines : Bytes → List Bytes
  | [] => [[]]
  | c :: cs =>
    if c = '\n' then [] :: splitLines cs
    else match splitLines cs with
      | l :: ls => (c :: l) :: ls
      | [] => [[c]]

/-- Some line of the text is an `id:` field. -/
def hasIdLine (b : Bytes) : Bool := (splitLines b).any (fun l => "id:".toList.isPrefixOf l)

/-- A keepalive frame lies inside a log frame: going through the writes in
order, a ping is written after the `data:` line of a frame and before the
blank line that ends the frame.  The flag tells whether a frame is open. -/
def tornFrame : Bool → List Effect → Bool
  | _, [] => false
  | inside, .write b :: t =>
    if b = ":ping \n\n".toList then inside || tornFrame inside t
    else if "data: ".toList.isPrefixOf b then tornFrame true t
    else if b = "\n".toList then tornFrame false t
    else tornFrame inside t
  | inside, _ :: t => tornFrame inside t

/-! ## The framing loop reads line by line and ends -/

theorem splitDelim_completeLine (l rest : Bytes) (h : completeLine l = true) :
    splitDelim '\n' (l ++ rest) = some (l, rest) := by
  induction l with
  | nil => simp [completeLine] at h
  | cons c cs ih =>
    cases cs with
    | nil =>
      simp [completeLine] at h
      subst h
      simp [splitDelim]
    | cons d ds =>
      simp only [completeLine, Bool.and_eq_true, bne_iff_ne, ne_eq] at h
      have := ih h.2
      simp only [List.cons_append] at this ⊢
      rw [splitDelim, if_neg h.1, this]

theorem splitDelim_length (delim : Char) (s line rest : Bytes)
    (h : splitDelim delim s = some (line, rest)) : rest.length < s.length := by
  induction s generalizing line with
  | nil => simp [splitDelim] at h
  | cons c cs ih =>
    simp only [splitDelim] at h
    split at h
    · simp only [Option.some.injEq, Prod.mk.injEq] at h
      simp [← h.2]
    · split at h
      · rename_i l r heq
        simp only [Option.some.injEq, Prod.mk.injEq] at h
        obtain ⟨_, h2⟩ := h
        subst h2
        have := ih l heq
        simp only [List.length_cons]
        omega
      · simp at h

/-- The loop ends: with a pass for every byte and one more, the loop has left
with the error that the stream reports at its end. -/
theorem framingLoop_ends (rt : Runtime) (fuel : Nat) (reader : Reader)
    (h : reader.data.length < fuel) :
    (framingLoop rt fuel reader).2 = some reader.err := by
  induction fuel generalizing reader with
  | zero => omega
  | succ n ih =>
    simp only [framingLoop, ReadString]
    cases hs : splitDelim '\n' reader.data with
    | none => simp
    | some p =>
      obtain ⟨line, rest⟩ := p
      have hlen := splitDelim_length _ _ _ _ hs
      have := ih { reader with data := rest } (by simp only; omega)
      simpa using this

/-- On complete lines followed by the end of the stream, the loop writes one
frame per line and then one more frame, for the empty message that the last
read returns together with the error. -/
theorem framingLoop_lines (rt : Runtime) (lines : List Bytes) (fuel : Nat) (e : GoError)
    (hl : ∀ l ∈ lines, completeLine l = true) (hf : lines.length < fuel) :
    framingLoop rt fuel ⟨lines.flatten, e⟩
      = ((lines.map (frameWrites rt)).flatten ++ frameWrites rt [], some e) := by
  induction lines generalizing fuel with
  | nil =>
    cases fuel with
    | zero => simp at hf
    | succ n => simp [framingLoop, ReadString, splitDelim]
  | cons l ls ih =>
    cases fuel with
    | zero => simp at hf
    | succ n =>
      have h1 := splitDelim_completeLine l ls.flatten (hl l (List.mem_cons_self _ _))
      have h2 := ih n (fun x hx => hl x (List.mem_cons_of_mem _ hx))
        (by simp only [List.length_cons] at hf; omega)
      simp only [framingLoop, ReadString, List.flatten_cons, h1, h2, List.map_cons,
        List.append_assoc]

/-! ## Bytes of the response -/

theorem body_append (a b : List Effect) : body (a ++ b) = body a ++ body b := by
  induction a with
  | nil => rfl
  | cons e t ih => cases e <;> simp [body, ih]

theorem splitLines_newline (p rest : Bytes) (hp : '\n' ∉ p) :
    splitLines (p ++ '\n' :: rest) = p :: splitLines rest := by
  induction p with
  | nil => simp [splitLines]
  | cons c cs ih =>
    simp only [List.mem_cons, not_or] at hp
    have hc : c ≠ '\n' := fun h => hp.1 h.symm
    have h := ih hp.2
    rw [List.cons_append, splitLines, if_neg hc, h]

theorem completeLine_dropLast (l : Bytes) (h : completeLine l = true) :
    l = l.dropLast ++ ['\n'] ∧ '\n' ∉ l.dropLast := by
  induction l with
  | nil => simp [completeLine] at h
  | cons c cs ih =>
    cases cs with
    | nil =>
      simp [completeLine] at h
      simp [h]
    | cons d ds =>
      simp only [completeLine, Bool.and_eq_true, bne_iff_ne, ne_eq] at h
      obtain ⟨h1, h2⟩ := ih h.2
      refine ⟨?_, ?_⟩
      · simp only [List.dropLast_cons₂, List.cons_append]
        rw [← h1]
      · simp only [List.dropLast_cons₂, List.mem_cons, not_or]
        exact ⟨fun hc => h.1 hc.symm, h2⟩

theorem take_IndexAny_newline (l : Bytes) (index : Nat) (h : completeLine l = true)
    (hi : IndexAny l " ".toList = some index) : '\n' ∉ l.take index := by
  induction l generalizing index with
  | nil => simp [IndexAny] at hi
  | cons c cs ih =>
    rw [IndexAny] at hi
    split at hi
    · simp only [Option.some.injEq] at hi
      subst hi
      simp
    · split at hi
      · rename_i j hj
        simp only [Option.some.injEq] at hi
        subst hi
        cases cs with
        | nil => simp [IndexAny] at hj
        | cons d ds =>
          simp only [completeLine, Bool.and_eq_true, bne_iff_ne, ne_eq] at h
          simp only [List.take_succ_cons, List.mem_cons, not_or]
          exact ⟨fun hc => h.1 hc.symm, ih j h.2 hj⟩
      · simp at hi

/-! ## What the loop and the handlers write -/

theorem frameWrites_effects (rt : Runtime) (message : Bytes) (e : Effect)
    (h : e ∈ frameWrites rt message) :
    e = .flush ∨ ∃ b, e = .write b ∧ b ≠ ":ping \n\n".toList := by
  simp only [frameWrites, idWrite, List.mem_append, List.mem_cons, List.mem_singleton,
    List.not_mem_nil, or_false] at h
  rcases h with (h | h) | h | h
  · exact Or.inr ⟨_, h, by simp [String.toList]⟩
  · split at h
    · split at h
      · simp only [List.mem_singleton] at h
        exact Or.inr ⟨_, h, by simp [String.toList]⟩
      · simp at h
    · simp at h
  · exact Or.inr ⟨_, h, by decide⟩
  · exact Or.inl h

theorem framingLoop_effects (rt : Runtime) (fuel : Nat) (reader : Reader) (e : Effect)
    (h : e ∈ (framingLoop rt fuel reader).1) :
    e = .flush ∨ ∃ b, e = .write b ∧ b ≠ ":ping \n\n".toList := by
  induction fuel generalizing reader with
  | zero => simp [framingLoop] at h
  | succ n ih =>
    simp only [framingLoop] at h
    split at h
    · exact frameWrites_effects rt _ e h
    · simp only [List.mem_append] at h
      rcases h with h | h
      · exact frameWrites_effects rt _ e h
      · exact ih _ h

/-- The handler leaves its loop: an opened stream is followed to its end. -/
theorem streamFrom_eq (rt : Runtime) (reader : Reader) :
    streamFrom rt reader
      = ⟨(framingLoop rt (reader.data.length + 1) reader).1 ++ afterLoop reader.err,
          .returned⟩ := by
  have h := framingLoop_ends rt (reader.data.length + 1) reader (Nat.lt_succ_self _)
  unfold streamFrom
  split
  · rename_i ops e heq
    rw [heq] at h
    simp only [Option.some.injEq] at h
    rw [heq, h]
  · rename_i ops heq
    rw [heq] at h
    simp at h

/-- The paths through `streamLogs`. -/
theorem streamLogs_cases (rt : Runtime) (h : handler) (w : ResponseWriter) (r : Request) :
    (r.Query.Get "id".toList = [] ∧
      streamLogs rt h w r = ⟨[.httpError "id is required".toList 400], .returned⟩) ∨
    (r.Query.Get "id".toList ≠ [] ∧ w.Flusher = false ∧
      streamLogs rt h w r = ⟨[.httpError "Streaming unsupported!".toList 500], .returned⟩) ∨
    (r.Query.Get "id".toList ≠ [] ∧ w.Flusher = true ∧
      ∃ err, (h.client.FindContainer (r.Query.Get "id".toList)).2 = some err ∧
        streamLogs rt h w r = ⟨[.httpError err.Error 404], .returned⟩) ∨
    (r.Query.Get "id".toList ≠ [] ∧ w.Flusher = true ∧
      (h.client.FindContainer (r.Query.Get "id".toList)).2 = none ∧
      ((h.client.ContainerLogs (h.client.FindContainer (r.Query.Get "id".toList)).1.ID
            h.config.TailSize (lastEventId r)).2 = some .EOF ∧
          streamLogs rt h w r
            = ⟨streamHeaders ++
                [.containerLogs (h.client.FindContainer (r.Query.Get "id".toList)).1.ID
                    h.config.TailSize (lastEventId r),
                  .write containerStopped, .flush], .returned⟩ ∨
        (∃ err, (h.client.ContainerLogs (h.client.FindContainer (r.Query.Get "id".toList)).1.ID
              h.config.TailSize (lastEventId r)).2 = some err ∧ err ≠ .EOF ∧
          streamLogs rt h w r
            = ⟨streamHeaders ++
                [.containerLogs (h.client.FindContainer (r.Query.Get "id".toList)).1.ID
                    h.config.TailSize (lastEventId r),
                  .httpError err.Error 500], .returned⟩) ∨
        (h.client.ContainerLogs (h.client.FindContainer (r.Query.Get "id".toList)).1.ID
              h.config.TailSize (lastEventId r) = (none, none) ∧
          streamLogs rt h w r
            = ⟨streamHeaders ++
                [.containerLogs (h.client.FindContainer (r.Query.Get "id".toList)).1.ID
                    h.config.TailSize (lastEventId r)], .panicked⟩) ∨
        (∃ reader,
          h.client.ContainerLogs (h.client.FindContainer (r.Query.Get "id".toList)).1.ID
              h.config.TailSize (lastEventId r) = (some reader, none) ∧
          streamLogs rt h w r
            = ⟨streamHeaders ++
                [.containerLogs (h.client.FindContainer (r.Query.Get "id".toList)).1.ID
                    h.config.TailSize (lastEventId r)] ++
                ((framingLoop rt (reader.data.length + 1) reader).1 ++ afterLoop reader.err),
                .returned⟩))) := by
  by_cases hid : r.Query.Get "id".toList = []
  · exact Or.inl ⟨hid, by simp only [streamLogs, hid, ↓reduceIte]⟩
  · right
    by_cases hfl : w.Flusher = true
    · right
      rcases hfind : h.client.FindContainer (r.Query.Get "id".toList) with ⟨c, _ | err⟩
      · right
        refine ⟨hid, hfl, rfl, ?_⟩
        rcases hopen : h.client.ContainerLogs c.ID h.config.TailSize (lastEventId r)
          with ⟨_ | reader, _ | err⟩
        · right; right; left
          refine ⟨rfl, ?_⟩
          simp only [streamLogs, hid, hfl, hfind, hopen, ↓reduceIte, Bool.not_true,
            Bool.false_eq_true]
        · by_cases he : err = .EOF
          · left
            subst he
            refine ⟨rfl, ?_⟩
            simp only [streamLogs, hid, hfl, hfind, hopen, ↓reduceIte, Bool.not_true,
              Bool.false_eq_true]
          · right; left
            refine ⟨err, rfl, he, ?_⟩
            simp only [streamLogs, hid, hfl, hfind, hopen, ↓reduceIte, Bool.not_true,
              Bool.false_eq_true, he]
        · right; right; right
          refine ⟨reader, rfl, ?_⟩
          simp only [streamLogs, hid, hfl, hfind, hopen, ↓reduceIte, Bool.not_true,
            Bool.false_eq_true, streamFrom_eq]
        · by_cases he : err = .EOF
          · left
            subst he
            refine ⟨rfl, ?_⟩
            simp only [streamLogs, hid, hfl, hfind, hopen, ↓reduceIte, Bool.not_true,
              Bool.false_eq_true]
          · right; left
            refine ⟨err, rfl, he, ?_⟩
            simp only [streamLogs, hid, hfl, hfind, hopen, ↓reduceIte, Bool.not_true,
              Bool.false_eq_true, he]
      · left
        exact ⟨hid, hfl, err, rfl, by
          simp only [streamLogs, hid, hfl, hfind, ↓reduceIte, Bool.not_true,
            Bool.false_eq_true]⟩
    · left
      simp only [Bool.not_eq_true] at hfl
      exact ⟨hid, hfl, by
        simp only [streamLogs, hid, hfl, ↓reduceIte, Bool.not_false]⟩

/-- The call to the Log Source in a run of `streamLogs`, when there is one,
is the call of line 96, and the stream it asks for is the one the run uses. -/
theorem streamLogs_call (rt : Runtime) (h : handler) (w : ResponseWriter) (r : Request)
    (id : Bytes) (tail : Nat) (since : Bytes)
    (hcall : Effect.containerLogs id tail since ∈ (streamLogs rt h w r).trace) :
    id = (h.client.FindContainer (r.Query.Get "id".toList)).1.ID
      ∧ tail = h.config.TailSize ∧ since = lastEventId r := by
  have hdr : Effect.containerLogs id tail since ∉ streamHeaders := by
    simp [streamHeaders]
  rcases streamLogs_cases rt h w r with ⟨_, e⟩ | ⟨_, _, e⟩ | ⟨_, _, _, _, e⟩
    | ⟨_, _, _, ⟨_, e⟩ | ⟨_, _, _, e⟩ | ⟨_, e⟩ | ⟨reader, _, e⟩⟩
  all_goals rw [e] at hcall
  · simp at hcall
  · simp at hcall
  · simp at hcall
  · simpa [hdr] using hcall
  · simpa [hdr] using hcall
  · simpa [hdr] using hcall
  · simp only [List.mem_append, hdr, false_or, List.mem_singleton,
      Effect.containerLogs.injEq] at hcall
    rcases hcall with hc | hc | hc
    · exact hc
    · have := framingLoop_effects rt _ _ _ hc
      simp at this
    · simp only [afterLoop] at hc
      split at hc <;> simp at hc

/-! ## The claims -/

/-- C2, as amended: for every message read by the loop that holds a space and
whose text before the first space is accepted by
`time.Parse(time.RFC3339Nano, ·)`, the frame is written as the `data:` line,
then `id: ` with that text and a newline, then the blank line, then a flush;
for a complete line the frame therefore reads, line by line: the `data:`
line, the `id:` line, the empty line. -/
theorem frameWrites_id (rt : Runtime) (message : Bytes) (index : Nat)
    (hindex : IndexAny message " ".toList = some index)
    (hparse : rt.ParseRFC3339Nano (message.take index) = true) :
    frameWrites rt message
        = [.write ("data: ".toList ++ message),
           .write ("id: ".toList ++ message.take index ++ "\n".toList),
           .write "\n".toList, .flush]
      ∧ (completeLine message = true →
          splitLines (body (frameWrites rt message))
            = ["data: ".toList ++ message.dropLast,
               "id: ".toList ++ message.take index, [], []]) := by
  have hw : frameWrites rt message
        = [.write ("data: ".toList ++ message),
           .write ("id: ".toList ++ message.take index ++ "\n".toList),
           .write "\n".toList, .flush] := by
    simp only [frameWrites, idWrite, hindex, hparse, ↓reduceIte, List.singleton_append,
      List.cons_append, List.nil_append]
  refine ⟨hw, fun hline => ?_⟩
  obtain ⟨h1, h2⟩ := completeLine_dropLast message hline
  have h3 := take_IndexAny_newline message index hline hindex
  have hd : '\n' ∉ "data: ".toList ++ message.dropLast := by
    simp only [List.mem_append, not_or]
    exact ⟨by decide, h2⟩
  have hi : '\n' ∉ "id: ".toList ++ message.take index := by
    simp only [List.mem_append, not_or]
    exact ⟨by decide, h3⟩
  have hb : body (frameWrites rt message)
      = ("data: ".toList ++ message.dropLast) ++ '\n' ::
          (("id: ".toList ++ message.take index) ++ '\n' :: ([] ++ '\n' :: [])) := by
    have hm : "data: ".toList ++ message = "data: ".toList ++ message.dropLast ++ ['\n'] := by
      rw [List.append_assoc, ← h1]
    rw [hw]
    simp only [body, List.append_nil, List.nil_append]
    rw [hm]
    simp only [List.append_assoc, List.singleton_append, String.toList, List.cons_append,
      List.nil_append]
  rw [hb, splitLines_newline _ _ hd, splitLines_newline _ _ hi,
    splitLines_newline _ _ (List.not_mem_nil _)]
  rfl

/-- Witness of `frameWrites_id`: the first line of the running example. -/
theorem frameWrites_id_witness :
    frameWrites (goRuntime []) "2024-01-01T00:00:00.000000001Z hello\n".toList
      = [.write "data: 2024-01-01T00:00:00.000000001Z hello\n".toList,
         .write "id: 2024-01-01T00:00:00.000000001Z\n".toList,
         .write "\n".toList, .flush] :=
  (frameWrites_id (goRuntime []) "2024-01-01T00:00:00.000000001Z hello\n".toList 30
    (by decide) (by decide)).1

/-- C2, counterexample: the line `2024-01-01T00:00:00Z<TAB>hello` begins with
a token, delimited by whitespace, that is a valid timestamp, and the frame
written for it has no `id:` line: the loop looks for a space only. -/
theorem frameWrites_tab_no_id :
    specLeadingToken "2024-01-01T00:00:00Z\thello\n".toList
        = some "2024-01-01T00:00:00Z".toList
      ∧ timeParseRFC3339Nano "2024-01-01T00:00:00Z".toList = true
      ∧ frameWrites (goRuntime []) "2024-01-01T00:00:00Z\thello\n".toList
        = [.write "data: 2024-01-01T00:00:00Z\thello\n".toList, .write "\n".toList, .flush]
      ∧ hasIdLine (body (frameWrites (goRuntime []) "2024-01-01T00:00:00Z\thello\n".toList))
        = false := by
  decide

/-- C3: for every message read by the loop whose leading token is not
accepted by `time.Parse(time.RFC3339Nano, ·)` (it holds no space, or the text
before its first space is rejected), the frame is written as the `data:` line
carrying the message and the blank line, then a flush; for a complete line
the frame reads, line by line: the `data:` line and the empty line, and no
line of it is an `id:` line. -/
theorem frameWrites_no_id (rt : Runtime) (message : Bytes)
    (hbad : ∀ index, IndexAny message " ".toList = some index →
      rt.ParseRFC3339Nano (message.take index) = false) :
    frameWrites rt message = [.write ("data: ".toList ++ message), .write "\n".toList, .flush]
      ∧ (completeLine message = true →
          splitLines (body (frameWrites rt message)) = ["data: ".toList ++ message.dropLast, [], []]
            ∧ hasIdLine (body (frameWrites rt message)) = false) := by
  have hw : frameWrites rt message
      = [.write ("data: ".toList ++ message), .write "\n".toList, .flush] := by
    cases hi : IndexAny message " ".toList with
    | none =>
      simp only [frameWrites, idWrite, hi, List.singleton_append, List.nil_append]
    | some index =>
      simp only [frameWrites, idWrite, hi, hbad index hi, List.singleton_append,
        List.nil_append, Bool.false_eq_true, ↓reduceIte]
  refine ⟨hw, fun hline => ?_⟩
  obtain ⟨h1, h2⟩ := completeLine_dropLast message hline
  have hd : '\n' ∉ "data: ".toList ++ message.dropLast := by
    simp only [List.mem_append, not_or]
    exact ⟨by decide, h2⟩
  have hb : body (frameWrites rt message)
      = ("data: ".toList ++ message.dropLast) ++ '\n' :: ([] ++ '\n' :: []) := by
    have hm : "data: ".toList ++ message = "data: ".toList ++ message.dropLast ++ ['\n'] := by
      rw [List.append_assoc, ← h1]
    rw [hw]
    simp only [body, List.append_nil, List.nil_append]
    rw [hm]
    simp only [List.append_assoc, List.singleton_append, String.toList, List.cons_append,
      List.nil_append]
  have hs : splitLines (body (frameWrites rt message))
      = ["data: ".toList ++ message.dropLast, [], []] := by
    rw [hb, splitLines_newline _ _ hd, splitLines_newline _ _ (List.not_mem_nil _)]
    rfl
  refine ⟨hs, ?_⟩
  rw [hasIdLine, hs]
  simp [String.toList, List.isPrefixOf]

/-- Witness of `frameWrites_no_id`: a line that does not start with a
timestamp. -/
theorem frameWrites_no_id_witness :
    frameWrites (goRuntime []) "hello world\n".toList
      = [.write "data: hello world\n".toList, .write "\n".toList, .flush] :=
  (frameWrites_no_id (goRuntime []) "hello world\n".toList (by decide)).1

/-- C4, as amended: whatever the keepalive task receives, what it writes is,
for each tick before the context is done, the bytes `:ping` (colon, then
`ping` with no space between), a space and two newlines, followed by a flush,
and nothing else. -/
theorem keepalive_frames (sigs : List Signal) :
    keepalive sigs
      = (List.replicate (sigs.takeWhile (fun s => decide (s = .tick))).length
          [Effect.write ":ping \n\n".toList, Effect.flush]).flatten := by
  induction sigs with
  | nil => rfl
  | cons s t ih =>
    cases s with
    | done => simp [keepalive]
    | tick => simp [keepalive, ih, List.replicate_succ]

/-- C4, counterexample: on one tick the task writes `:ping \n\n`; the bytes
`: ping \n\n`, with a space after the colon, are not written. -/
theorem keepalive_tick_bytes :
    body (keepalive [.tick]) = ":ping \n\n".toList
      ∧ Effect.write ": ping \n\n".toList ∉ keepalive [.tick]
      ∧ body (keepalive [.tick]) ≠ ": ping \n\n".toList := by
  decide

/-- C5, as amended: in every run of `streamLogs` that asks the Log Source for
a stream, the resume marker passed is the first value of the query parameter
`lastEventId` when that value is not empty, and the value of the header
`Last-Event-ID` otherwise (empty when there is none). -/
theorem streamLogs_marker (rt : Runtime) (h : handler) (w : ResponseWriter) (r : Request)
    (id : Bytes) (tail : Nat) (since : Bytes)
    (hcall : Effect.containerLogs id tail since ∈ (streamLogs rt h w r).trace) :
    since = if r.Query.Get "lastEventId".toList ≠ [] then r.Query.Get "lastEventId".toList
      else r.Header.Get "Last-Event-ID".toList := by
  rw [(streamLogs_call rt h w r id tail since hcall).2.2, lastEventId]
  by_cases hq : r.Query.Get "lastEventId".toList = []
  · simp only [hq, List.length_nil, gt_iff_lt, lt_self_iff_false, ↓reduceIte, ne_eq,
      not_true_eq_false]
  · have : (r.Query.Get "lastEventId".toList).length > 0 := List.length_pos.mpr hq
    simp only [this, ↓reduceIte, ne_eq, hq, not_false_eq_true]

/-- Witness of `streamLogs_marker`: the query parameter wins over the
header. -/
theorem streamLogs_marker_witness :
    "2024-01-01T00:00:00.000000002Z".toList
      = if (sampleRequest [("id".toList, "abc123".toList),
              ("lastEventId".toList, "2024-01-01T00:00:00.000000002Z".toList)]
              [("Last-Event-ID".toList, "2024-01-01T00:00:00.000000001Z".toList)]).Query.Get
              "lastEventId".toList ≠ []
        then (sampleRequest [("id".toList, "abc123".toList),
              ("lastEventId".toList, "2024-01-01T00:00:00.000000002Z".toList)]
              [("Last-Event-ID".toList, "2024-01-01T00:00:00.000000001Z".toList)]).Query.Get
              "lastEventId".toList
        else (sampleRequest [("id".toList, "abc123".toList),
              ("lastEventId".toList, "2024-01-01T00:00:00.000000002Z".toList)]
              [("Last-Event-ID".toList, "2024-01-01T00:00:00.000000001Z".toList)]).Header.Get
              "Last-Event-ID".toList :=
  streamLogs_marker (goRuntime []) (sampleHandler (some ⟨helloWorld, .EOF⟩, none)) ⟨true⟩
    (sampleRequest [("id".toList, "abc123".toList),
      ("lastEventId".toList, "2024-01-01T00:00:00.000000002Z".toList)]
      [("Last-Event-ID".toList, "2024-01-01T00:00:00.000000001Z".toList)])
    "abc123".toList 300 "2024-01-01T00:00:00.000000002Z".toList (by decide)

/-- C5, counterexample: the request `?id=abc123&lastEventId=` carries the
query parameter `lastEventId`, with an empty value, and the header
`Last-Event-ID: 2024-01-01T00:00:00.000000001Z`; the marker passed to the Log
Source is the value of the header, not the value of the query parameter. -/
theorem streamLogs_empty_query_marker :
    emptyMarkerRequest.Query "lastEventId".toList = [[]]
      ∧ emptyMarkerRequest.Query.Get "lastEventId".toList = []
      ∧ Effect.containerLogs "abc123".toList 300 "2024-01-01T00:00:00.000000001Z".toList
          ∈ (streamLogs (goRuntime []) (sampleHandler (some ⟨helloWorld, .EOF⟩, none)) ⟨true⟩
              emptyMarkerRequest).trace
      ∧ Effect.containerLogs "abc123".toList 300 []
          ∉ (streamLogs (goRuntime []) (sampleHandler (some ⟨helloWorld, .EOF⟩, none)) ⟨true⟩
              emptyMarkerRequest).trace := by
  decide

/-- C6: for every request with a non-empty process id that resolves, when
the stream is opened (the run reaches the call to the Log Source of line 96,
which it does once the writer is known to be a flusher) and the Log Source
answers that call with `io.EOF`, the response body is exactly the terminal
frame `event: container-stopped\ndata: end of stream\n\n`, with no `data:`
event before it, the status is 200 and the handler returns. -/
theorem streamLogs_already_ended (rt : Runtime) (h : handler) (w : ResponseWriter)
    (r : Request) (id : Bytes) (tail : Nat) (since : Bytes)
    (hid : r.Query.Get "id".toList ≠ [])
    (hfind : (h.client.FindContainer (r.Query.Get "id".toList)).2 = none)
    (hcall : Effect.containerLogs id tail since ∈ (streamLogs rt h w r).trace)
    (heof : (h.client.ContainerLogs id tail since).2 = some .EOF) :
    body (streamLogs rt h w r).trace
        = "event: container-stopped\ndata: end of stream\n\n".toList
      ∧ status (streamLogs rt h w r).trace = some 200
      ∧ (streamLogs rt h w r).outcome = .returned := by
  obtain ⟨e1, e2, e3⟩ := streamLogs_call rt h w r id tail since hcall
  subst e1 e2 e3
  rcases streamLogs_cases rt h w r with ⟨h0, _⟩ | ⟨_, _, e⟩ | ⟨_, _, err, h1, _⟩
    | ⟨_, _, _, ⟨_, e⟩ | ⟨err, h1, h2, _⟩ | ⟨h1, _⟩ | ⟨reader, h1, _⟩⟩
  · exact absurd h0 hid
  · rw [e] at hcall
    simp at hcall
  · rw [hfind] at h1
    simp at h1
  · rw [e]
    refine ⟨?_, ?_, rfl⟩
    · simp only [body_append]
      rfl
    · rfl
  · rw [heof] at h1
    simp only [Option.some.injEq] at h1
    exact absurd h1.symm h2
  · rw [h1] at heof
    simp at heof
  · rw [h1] at heof
    simp at heof

/-- Witness of `streamLogs_already_ended`: the container `abc123` has ended
when the stream is asked for. -/
theorem streamLogs_already_ended_witness :
    body (streamLogs (goRuntime []) (sampleHandler (none, some .EOF)) ⟨true⟩ plainRequest).trace
        = "event: container-stopped\ndata: end of stream\n\n".toList
      ∧ status (streamLogs (goRuntime []) (sampleHandler (none, some .EOF)) ⟨true⟩
          plainRequest).trace = some 200
      ∧ (streamLogs (goRuntime []) (sampleHandler (none, some .EOF)) ⟨true⟩
          plainRequest).outcome = .returned :=
  streamLogs_already_ended (goRuntime []) (sampleHandler (none, some .EOF)) ⟨true⟩ plainRequest
    "abc123".toList 300 [] (by decide) (by decide) (by decide) (by decide)

/-! ### The frame written for the last read -/

/-- The pass of the loop whose read reports an error still writes a frame,
for the bytes returned with the error, before the loop is left. -/
theorem framingLoop_last_read (rt : Runtime) (fuel : Nat) (reader : Reader)
    (h : splitDelim '\n' reader.data = none) :
    framingLoop rt (fuel + 1) reader = (frameWrites rt reader.data, some reader.err) := by
  simp only [framingLoop, ReadString, h]

theorem body_frames (rt : Runtime) (lines : List Bytes) :
    body ((lines.map (frameWrites rt)).flatten)
      = (lines.map (fun l => body (frameWrites rt l))).flatten := by
  induction lines with
  | nil => rfl
  | cons l ls ih => simp only [List.map_cons, List.flatten_cons, body_append, ih]

/-- On a stream of complete lines that then reports `io.EOF`, the body
written by `streamLogs` is one frame per line, then the bytes `data: ` and a
newline, then the terminal frame; the handler returns. -/
theorem streamLogs_lines (rt : Runtime) (h : handler) (w : ResponseWriter) (r : Request)
    (lines : List Bytes) (hl : ∀ l ∈ lines, completeLine l = true)
    (hid : r.Query.Get "id".toList ≠ []) (hfl : w.Flusher = true)
    (hfind : (h.client.FindContainer (r.Query.Get "id".toList)).2 = none)
    (hopen : h.client.ContainerLogs (h.client.FindContainer (r.Query.Get "id".toList)).1.ID
        h.config.TailSize (lastEventId r) = (some ⟨lines.flatten, .EOF⟩, none)) :
    body (streamLogs rt h w r).trace
        = (lines.map (fun l => body (frameWrites rt l))).flatten
            ++ "data: \n".toList ++ containerStopped
      ∧ (streamLogs rt h w r).outcome = .returned := by
  have hlen : lines.length < (lines.flatten).length + 1 := by
    have : ∀ ls : List Bytes, (∀ l ∈ ls, completeLine l = true) →
        ls.length ≤ ls.flatten.length := by
      intro ls
      induction ls with
      | nil => simp
      | cons a t ih =>
        intro ha
        have h1 : 0 < a.length := by
          cases a with
          | nil => simpa [completeLine] using ha [] (List.mem_cons_self _ _)
          | cons _ _ => simp
        have h2 := ih (fun x hx => ha x (List.mem_cons_of_mem _ hx))
        simp only [List.length_cons, List.flatten_cons, List.length_append]
        omega
    have := this lines hl
    omega
  have hloop := framingLoop_lines rt lines (lines.flatten.length + 1) .EOF hl hlen
  have hempty : body (frameWrites rt []) = "data: \n".toList := by
    simp only [frameWrites, idWrite, IndexAny]
    rfl
  rcases streamLogs_cases rt h w r with ⟨h0, _⟩ | ⟨_, h0, _⟩ | ⟨_, _, err, h1, _⟩
    | ⟨_, _, _, ⟨h1, _⟩ | ⟨err, h1, _, _⟩ | ⟨h1, _⟩ | ⟨reader, h1, e⟩⟩
  · exact absurd h0 hid
  · rw [hfl] at h0
    simp at h0
  · rw [hfind] at h1
    simp at h1
  · rw [hopen] at h1
    simp at h1
  · rw [hopen] at h1
    simp at h1
  · rw [hopen] at h1
    simp at h1
  · rw [hopen] at h1
    simp only [Prod.mk.injEq, Option.some.injEq, and_true] at h1
    subst h1
    rw [e]
    refine ⟨?_, rfl⟩
    simp only [hloop, body_append, body_frames, hempty, afterLoop, ↓reduceIte]
    simp [streamHeaders, body]

/-- C1, the code at the example of the claim: for the two lines
`2024-01-01T00:00:00.000000001Z hello` and `2024-01-01T00:00:00.000000002Z world`
followed by the end of the stream, the body holds the two frames, then the
bytes `data: ` and a newline written for the read that reported `io.EOF`, and
only then the terminal frame. -/
theorem streamLogs_helloWorld :
    body (streamLogs (goRuntime []) (sampleHandler (some ⟨helloWorld, .EOF⟩, none)) ⟨true⟩
        plainRequest).trace
      = ("data: 2024-01-01T00:00:00.000000001Z hello\nid: 2024-01-01T00:00:00.000000001Z\n\n"
          ++ "data: 2024-01-01T00:00:00.000000002Z world\nid: 2024-01-01T00:00:00.000000002Z\n\n"
          ++ "data: \n"
          ++ "event: container-stopped\ndata: end of stream\n\n").toList := by
  decide

/-- C7, the code at a cancelled read: the request is cancelled while the loop
waits for the first line, so the first read returns no bytes and
`context.Canceled`; after that read the loop writes `data: ` and a newline
and flushes.  No terminal frame follows. -/
theorem streamLogs_cancelled :
    (streamLogs (goRuntime []) (sampleHandler (some ⟨[], .Canceled⟩, none)) ⟨true⟩
        plainRequest).trace
      = streamHeaders ++ [.containerLogs "abc123".toList 300 [], .write "data: ".toList,
          .write "\n".toList, .flush, .tickerStop, .close]
      ∧ body (streamLogs (goRuntime []) (sampleHandler (some ⟨[], .Canceled⟩, none)) ⟨true⟩
          plainRequest).trace = "data: \n".toList := by
  decide

/-! ### Closing the log byte stream -/

theorem closes_append (a b : List Effect) : closes (a ++ b) = closes a + closes b := by
  simp [closes, List.count_append]

/-- A run of `streamLogs` that has opened a log byte stream closes it exactly
once and returns. -/
theorem streamLogs_closes_once (rt : Runtime) (h : handler) (w : ResponseWriter) (r : Request)
    (reader : Reader) (hid : r.Query.Get "id".toList ≠ []) (hfl : w.Flusher = true)
    (hfind : (h.client.FindContainer (r.Query.Get "id".toList)).2 = none)
    (hopen : h.client.ContainerLogs (h.client.FindContainer (r.Query.Get "id".toList)).1.ID
        h.config.TailSize (lastEventId r) = (some reader, none)) :
    closes (streamLogs rt h w r).trace = 1 ∧ (streamLogs rt h w r).outcome = .returned := by
  rcases streamLogs_cases rt h w r with ⟨h0, _⟩ | ⟨_, h0, _⟩ | ⟨_, _, err, h1, _⟩
    | ⟨_, _, _, ⟨h1, _⟩ | ⟨err, h1, _, _⟩ | ⟨h1, _⟩ | ⟨rd, h1, e⟩⟩
  · exact absurd h0 hid
  · rw [hfl] at h0
    simp at h0
  · rw [hfind] at h1
    simp at h1
  · rw [hopen] at h1
    simp at h1
  · rw [hopen] at h1
    simp at h1
  · rw [hopen] at h1
    simp at h1
  · rw [e]
    refine ⟨?_, rfl⟩
    have hops : closes (framingLoop rt (rd.data.length + 1) rd).1 = 0 := by
      rw [closes, List.count_eq_zero]
      intro hc
      have := framingLoop_effects rt _ _ _ hc
      simp at this
    have hafter : closes (afterLoop rd.err) = 1 := by
      unfold afterLoop
      split <;> rfl
    simp only [closes_append, hops, hafter]
    rfl

/-- A run of `fetchLogsBetweenDates` that has opened a log byte stream closes
it exactly once and returns. -/
theorem fetchLogsBetweenDates_closes_once (rt : Runtime) (h : handler) (r : Request)
    (reader : Reader)
    (hopen : h.client.ContainerLogsBetweenDates (r.Query.Get "id".toList)
        (parseOrZero rt (r.Query.Get "from".toList)) (parseOrZero rt (r.Query.Get "to".toList))
      = (some reader, none)) :
    closes (fetchLogsBetweenDates rt h r).trace = 1
      ∧ (fetchLogsBetweenDates rt h r).outcome = .returned := by
  refine ⟨?_, ?_⟩ <;> simp only [fetchLogsBetweenDates, hopen]
  rfl

/-- No run of `downloadLogs` closes the log byte stream. -/
theorem downloadLogs_closes (rt : Runtime) (h : handler) (r : Request) :
    closes (downloadLogs rt h r).trace = 0 := by
  unfold downloadLogs
  simp only
  split
  · rfl
  · split <;> simp [closes]

/-- C8, the code at a download: for the request `?id=abc123`, `downloadLogs`
opens the log byte stream of the container, copies it into the archive and
returns, and the stream is not closed; `streamLogs` and
`fetchLogsBetweenDates` on the same stream close it once. -/
theorem downloadLogs_leaves_stream_open :
    Effect.containerLogsBetweenDates "abc123".toList (.unix 1704067200) .now
        ∈ (downloadLogs (goRuntime "2024-01-01T00-00-00".toList)
            (sampleHandler (some ⟨helloWorld, .EOF⟩, none)) plainRequest).trace
      ∧ (downloadLogs (goRuntime "2024-01-01T00-00-00".toList)
            (sampleHandler (some ⟨helloWorld, .EOF⟩, none)) plainRequest).outcome = .returned
      ∧ closes (downloadLogs (goRuntime "2024-01-01T00-00-00".toList)
            (sampleHandler (some ⟨helloWorld, .EOF⟩, none)) plainRequest).trace = 0
      ∧ closes (streamLogs (goRuntime "2024-01-01T00-00-00".toList)
            (sampleHandler (some ⟨helloWorld, .EOF⟩, none)) ⟨true⟩ plainRequest).trace = 1
      ∧ closes (fetchLogsBetweenDates (goRuntime "2024-01-01T00-00-00".toList)
            (sampleHandler (some ⟨helloWorld, .EOF⟩, none)) plainRequest).trace = 1 := by
  decide

/-! ### A range read that cannot be opened -/

/-- When the Log Source returns no stream, `fetchLogsBetweenDates` panics at
`defer reader.Close()`: nothing is written and no status is set. -/
theorem fetchLogsBetweenDates_no_stream (rt : Runtime) (h : handler) (r : Request)
    (err : Option GoError)
    (hopen : h.client.ContainerLogsBetweenDates (r.Query.Get "id".toList)
        (parseOrZero rt (r.Query.Get "from".toList)) (parseOrZero rt (r.Query.Get "to".toList))
      = (none, err)) :
    (fetchLogsBetweenDates rt h r).outcome = .panicked
      ∧ status (fetchLogsBetweenDates rt h r).trace = none
      ∧ body (fetchLogsBetweenDates rt h r).trace = [] := by
  refine ⟨?_, ?_, ?_⟩ <;> simp only [fetchLogsBetweenDates, hopen] <;> rfl

/-- C10, the code at a failed range read: the Log Source returns the error
`no such container` and no stream for `?id=abc123`; the run of
`fetchLogsBetweenDates` sets the content type, asks for the range, and panics
at `defer reader.Close()`, before the error is looked at: no status 500 and no
body are written, and the handler does not return. -/
theorem fetchLogsBetweenDates_failed_open :
    fetchLogsBetweenDates (goRuntime [])
        (sampleHandler (none, some (.other "no such container".toList))) plainRequest
      = ⟨[.setHeader "Content-Type".toList "text/plain; charset=UTF-8".toList,
          .containerLogsBetweenDates "abc123".toList .zero .zero], .panicked⟩
      ∧ status (fetchLogsBetweenDates (goRuntime [])
          (sampleHandler (none, some (.other "no such container".toList))) plainRequest).trace
        = none := by
  decide

/-! ### The two tasks writing to one response -/

theorem keepalive_effects (sigs : List Signal) (e : Effect) (h : e ∈ keepalive sigs) :
    e = .write ":ping \n\n".toList ∨ e = .flush := by
  induction sigs with
  | nil => simp [keepalive] at h
  | cons s t ih =>
    cases s with
    | done => simp [keepalive] at h
    | tick =>
      simp only [keepalive, List.mem_cons] at h
      rcases h with h | h | h
      · exact Or.inl h
      · exact Or.inr h
      · exact ih h

theorem streamLogs_no_ping (rt : Runtime) (h : handler) (w : ResponseWriter) (r : Request)
    (e : Effect) (he : e ∈ (streamLogs rt h w r).trace) : e ≠ .write ":ping \n\n".toList := by
  have hdr : ∀ x ∈ streamHeaders, x ≠ Effect.write ":ping \n\n".toList := by
    intro x hx
    simp only [streamHeaders, List.mem_cons, List.mem_singleton, List.not_mem_nil,
      or_false] at hx
    rcases hx with hx | hx | hx | hx | hx <;> rw [hx] <;> simp
  have hstop : Effect.write containerStopped ≠ Effect.write ":ping \n\n".toList := by decide
  rcases streamLogs_cases rt h w r with ⟨_, e1⟩ | ⟨_, _, e1⟩ | ⟨_, _, _, _, e1⟩
    | ⟨_, _, _, ⟨_, e1⟩ | ⟨_, _, _, e1⟩ | ⟨_, e1⟩ | ⟨reader, _, e1⟩⟩
  all_goals rw [e1] at he
  · simp only [List.mem_singleton] at he
    rw [he]
    simp
  · simp only [List.mem_singleton] at he
    rw [he]
    simp
  · simp only [List.mem_singleton] at he
    rw [he]
    simp
  · simp only [List.mem_append, List.mem_cons, List.mem_singleton, List.not_mem_nil,
      or_false] at he
    rcases he with he | he | he | he
    · exact hdr e he
    · rw [he]; simp
    · rw [he]; exact hstop
    · rw [he]; simp
  · simp only [List.mem_append, List.mem_cons, List.mem_singleton, List.not_mem_nil,
      or_false] at he
    rcases he with he | he | he
    · exact hdr e he
    · rw [he]; simp
    · rw [he]; simp
  · simp only [List.mem_append, List.mem_singleton] at he
    rcases he with he | he
    · exact hdr e he
    · rw [he]; simp
  · simp only [List.mem_append, List.mem_singleton] at he
    rcases he with (he | he) | he | he
    · exact hdr e he
    · rw [he]; simp
    · rcases framingLoop_effects rt _ _ _ he with h1 | ⟨b, h1, h2⟩
      · rw [h1]; simp
      · rw [h1]
        simpa using h2
    · simp only [afterLoop, List.mem_append, List.mem_cons, List.mem_singleton,
        List.not_mem_nil, or_false] at he
      rcases he with he | he | he
      · split at he
        · simp only [List.mem_cons, List.mem_singleton, List.not_mem_nil, or_false] at he
          rcases he with he | he
          · rw [he]; exact hstop
          · rw [he]; simp
        · simp at he
      · rw [he]; simp
      · rw [he]; simp

theorem body_cons (e : Effect) (t : List Effect) : body (e :: t) = body [e] ++ body t :=
  body_append [e] t

/-- Taking the ping writes out of an interleaving of one task's effects,
none of them a ping write, with pings and flushes leaves the bytes of that
task. -/
theorem body_interleaving (merged xs ys : List Effect)
    (h : isInterleaving merged xs ys = true)
    (hx : ∀ e ∈ xs, e ≠ .write ":ping \n\n".toList)
    (hy : ∀ e ∈ ys, e = .write ":ping \n\n".toList ∨ e = .flush) :
    body (merged.filter (fun e => decide (e ≠ .write ":ping \n\n".toList))) = body xs := by
  induction merged generalizing xs ys with
  | nil =>
    cases xs with
    | nil => rfl
    | cons x xs => simp [isInterleaving] at h
  | cons z zs ih =>
    simp only [isInterleaving, Bool.or_eq_true] at h
    rcases h with h | h
    · cases xs with
      | nil => simp at h
      | cons x xs' =>
        simp only [Bool.and_eq_true, decide_eq_true_eq] at h
        obtain ⟨hxz, hrest⟩ := h
        subst hxz
        have hne := hx x (List.mem_cons_self _ _)
        have := ih xs' ys hrest (fun e he => hx e (List.mem_cons_of_mem _ he)) hy
        rw [List.filter_cons_of_pos (by simpa using hne), body_cons, this, ← body_cons]
    · cases ys with
      | nil => simp at h
      | cons y ys' =>
        simp only [Bool.and_eq_true, decide_eq_true_eq] at h
        obtain ⟨hyz, hrest⟩ := h
        subst hyz
        have := ih xs ys' hrest hx (fun e he => hy e (List.mem_cons_of_mem _ he))
        rcases hy y (List.mem_cons_self _ _) with hp | hf
        · rw [List.filter_cons_of_neg (by simpa using hp), this]
        · rw [hf, List.filter_cons_of_pos (by simp), body_cons, this]
          rfl

/-- C9, as amended: each write call taken as one step, in every interleaving
of the effects of a run of `streamLogs` with the effects of its keepalive
task, the response body with the ping writes taken out is the body that the
run writes on its own: a ping never falls inside the bytes of one write, only
between two writes. -/
theorem streamLogs_interleaving (rt : Runtime) (h : handler) (w : ResponseWriter)
    (r : Request) (sigs : List Signal) (merged : List Effect)
    (hm : isInterleaving merged (streamLogs rt h w r).trace (keepalive sigs) = true) :
    body (merged.filter (fun e => decide (e ≠ .write ":ping \n\n".toList)))
      = body (streamLogs rt h w r).trace :=
  body_interleaving merged _ _ hm (streamLogs_no_ping rt h w r) (keepalive_effects sigs)

/-- Witness of `streamLogs_interleaving`: one line `x`, the end of the
stream, and one tick that falls between the `data:` line and the blank line
of the frame. -/
theorem streamLogs_interleaving_witness :
    body (((streamLogs (goRuntime []) (sampleHandler (some ⟨"x\n".toList, .EOF⟩, none)) ⟨true⟩
          plainRequest).trace.take 7 ++ keepalive [.tick]
        ++ (streamLogs (goRuntime []) (sampleHandler (some ⟨"x\n".toList, .EOF⟩, none)) ⟨true⟩
          plainRequest).trace.drop 7).filter
        (fun e => decide (e ≠ .write ":ping \n\n".toList)))
      = body (streamLogs (goRuntime []) (sampleHandler (some ⟨"x\n".toList, .EOF⟩, none)) ⟨true⟩
          plainRequest).trace :=
  streamLogs_interleaving (goRuntime []) (sampleHandler (some ⟨"x\n".toList, .EOF⟩, none)) ⟨true⟩
    plainRequest [.tick] _ (by decide)

/-- C9, counterexample: one line `x`, then the end of the stream, and one
tick.  The keepalive task writes its ping after the loop has written
`data: x` and before the loop writes the blank line of that frame; this is an
interleaving of the writes of the two tasks, and in it the ping lies inside
the frame. -/
theorem streamLogs_torn_frame :
    isInterleaving
        ((streamLogs (goRuntime []) (sampleHandler (some ⟨"x\n".toList, .EOF⟩, none)) ⟨true⟩
            plainRequest).trace.take 7 ++ keepalive [.tick]
          ++ (streamLogs (goRuntime []) (sampleHandler (some ⟨"x\n".toList, .EOF⟩, none)) ⟨true⟩
            plainRequest).trace.drop 7)
        (streamLogs (goRuntime []) (sampleHandler (some ⟨"x\n".toList, .EOF⟩, none)) ⟨true⟩
            plainRequest).trace
        (keepalive [.tick]) = true
      ∧ tornFrame false
        ((streamLogs (goRuntime []) (sampleHandler (some ⟨"x\n".toList, .EOF⟩, none)) ⟨true⟩
            plainRequest).trace.take 7 ++ keepalive [.tick]
          ++ (streamLogs (goRuntime []) (sampleHandler (some ⟨"x\n".toList, .EOF⟩, none)) ⟨true⟩
            plainRequest).trace.drop 7) = true
      ∧ body
        ((streamLogs (goRuntime []) (sampleHandler (some ⟨"x\n".toList, .EOF⟩, none)) ⟨true⟩
            plainRequest).trace.take 7 ++ keepalive [.tick]
          ++ (streamLogs (goRuntime []) (sampleHandler (some ⟨"x\n".toList, .EOF⟩, none)) ⟨true⟩
            plainRequest).trace.drop 7)
        = ("data: x\n" ++ ":ping \n\n" ++ "\n" ++ "data: \n"
            ++ "event: container-stopped\ndata: end of stream\n\n").toList := by
  decide

/-! ### Values accepted by `time.Parse` hold no whitespace -/

theorem digit_not_whitespace (c : Char) (h0 : '0' ≤ c) (h9 : c ≤ '9') :
    c.isWhitespace = false := by
  simp only [Char.isWhitespace, Bool.or_eq_false_iff, beq_eq_false_iff_ne, ne_eq,
    decide_eq_false_iff_not]
  refine ⟨⟨⟨?_, ?_⟩, ?_⟩, ?_⟩ <;> (intro h; subst h; revert h0; decide)

theorem isDigit_zero (c : Char) (s : Bytes) (h : isDigit (c :: s) 0 = true) :
    c.isWhitespace = false := by
  simp only [isDigit, List.get?_cons_zero, Bool.and_eq_true, decide_eq_true_eq] at h
  exact digit_not_whitespace c h.1 h.2

theorem isDigit_one (c d : Char) (s : Bytes) (h : isDigit (c :: d :: s) 1 = true) :
    d.isWhitespace = false := by
  simp only [isDigit, List.get?_cons_succ, List.get?_cons_zero, Bool.and_eq_true,
    decide_eq_true_eq] at h
  exact digit_not_whitespace d h.1 h.2

theorem getnum_digits (s : Bytes) (fixed : Bool) (n : Nat) (rest : Bytes)
    (h : getnum s fixed = some (n, rest)) :
    ∃ pre, s = pre ++ rest ∧ ∀ c ∈ pre, c.isWhitespace = false := by
  unfold getnum at h
  split at h
  · simp at h
  · rename_i h0
    simp only [Bool.not_eq_true, Bool.not_eq_false] at h0
    split at h
    · split at h
      · simp at h
      · cases s with
        | nil => simp at h
        | cons c t =>
          simp only [Option.some.injEq, Prod.mk.injEq] at h
          refine ⟨[c], by simp [h.2], ?_⟩
          intro x hx
          simp only [List.mem_singleton] at hx
          subst hx
          exact isDigit_zero _ _ (by simpa using h0)
    · rename_i h1
      simp only [Bool.not_eq_true, Bool.not_eq_false] at h1
      cases s with
      | nil => simp at h
      | cons c t =>
        cases t with
        | nil => simp at h
        | cons d u =>
          simp only [Option.some.injEq, Prod.mk.injEq] at h
          refine ⟨[c, d], by simp [h.2], ?_⟩
          intro x hx
          simp only [List.mem_cons, List.mem_singleton, List.not_mem_nil, or_false] at hx
          rcases hx with hx | hx
          · subst hx
            exact isDigit_zero _ _ (by simpa using h0)
          · subst hx
            exact isDigit_one _ _ _ (by simpa using h1)

theorem skip_getnum_digits (v : Bytes) (lit : Char) (fixed : Bool) (n : Nat) (rest : Bytes)
    (hlit : lit.isWhitespace = false)
    (h : (skip v lit).bind (fun x => getnum x fixed) = some (n, rest)) :
    ∃ pre, v = pre ++ rest ∧ ∀ c ∈ pre, c.isWhitespace = false := by
  cases v with
  | nil => simp [skip] at h
  | cons c t =>
    simp only [skip] at h
    split at h
    · rename_i hc
      subst hc
      simp only [Option.some_bind] at h
      obtain ⟨pre, h1, h2⟩ := getnum_digits _ _ _ _ h
      refine ⟨c :: pre, by simp [h1], ?_⟩
      intro x hx
      simp only [List.mem_cons] at hx
      rcases hx with hx | hx
      · rw [hx]; exact hlit
      · exact h2 x hx
    · simp at h

theorem skipFracSecond_digits (v : Bytes) :
    ∃ pre, v = pre ++ skipFracSecond v ∧ ∀ c ∈ pre, c.isWhitespace = false := by
  cases v with
  | nil => exact ⟨[], rfl, by simp⟩
  | cons c rest =>
    simp only [skipFracSecond]
    split
    · rename_i hc
      simp only [Bool.and_eq_true] at hc
      refine ⟨c :: rest.takeWhile (fun d => decide ('0' ≤ d) && decide (d ≤ '9')), ?_, ?_⟩
      · simp [List.takeWhile_append_dropWhile]
      · intro x hx
        simp only [List.mem_cons] at hx
        rcases hx with hx | hx
        · subst hx
          have := hc.1
          simp only [commaOrPeriod, Bool.or_eq_true, beq_iff_eq] at this
          rcases this with h | h <;> (subst h; decide)
        · have := List.mem_takeWhile_imp hx
          simp only [Bool.and_eq_true, decide_eq_true_eq] at this
          exact digit_not_whitespace x this.1 this.2
    · exact ⟨[], rfl, by simp⟩

theorem skipZone_chars (z : Bytes) (h : skipZone z = some []) :
    ∀ c ∈ z, c.isWhitespace = false := by
  unfold skipZone at h
  split at h
  · simp only [Option.some.injEq] at h
    subst h
    intro c hc
    simp only [List.mem_singleton] at hc
    subst hc
    decide
  · rename_i sign h1 h2 colon m1 m2 rest _
    split at h
    · simp at h
    · rename_i hcolon
      simp only [ne_eq, Decidable.not_not] at hcolon
      split at h
      · rename_i hr _ mm _ hh hm
        split at h
        · simp at h
        · split at h
          · rename_i hsign
            simp only [Option.some.injEq] at h
            subst h
            obtain ⟨p1, e1, d1⟩ := getnum_digits _ _ _ _ hh
            obtain ⟨p2, e2, d2⟩ := getnum_digits _ _ _ _ hm
            have k1 : ∀ c ∈ [h1, h2], c.isWhitespace = false := by
              unfold getnum at hh
              split at hh
              · simp at hh
              · rename_i a0
                split at hh
                · simp at hh
                · rename_i a1
                  simp only [Bool.not_eq_true, Bool.not_eq_false] at a0 a1
                  intro c hc
                  simp only [List.mem_cons, List.mem_singleton, List.not_mem_nil,
                    or_false] at hc
                  rcases hc with hc | hc
                  · subst hc; exact isDigit_zero _ _ (by simpa using a0)
                  · subst hc; exact isDigit_one _ _ _ (by simpa using a1)
            have k2 : ∀ c ∈ [m1, m2], c.isWhitespace = false := by
              unfold getnum at hm
              split at hm
              · simp at hm
              · rename_i a0
                split at hm
                · simp at hm
                · rename_i a1
                  simp only [Bool.not_eq_true, Bool.not_eq_false] at a0 a1
                  intro c hc
                  simp only [List.mem_cons, List.mem_singleton, List.not_mem_nil,
                    or_false] at hc
                  rcases hc with hc | hc
                  · subst hc; exact isDigit_zero _ _ (by simpa using a0)
                  · subst hc; exact isDigit_one _ _ _ (by simpa using a1)
            intro c hc
            simp only [List.mem_cons, List.not_mem_nil, or_false] at hc
            rcases hc with hc | hc | hc | hc | hc | hc
            · subst hc
              simp only [Bool.or_eq_true, decide_eq_true_eq] at hsign
              rcases hsign with hs | hs <;> (subst hs; decide)
            · exact k1 c (by simp [hc])
            · exact k1 c (by simp [hc])
            · subst hc; subst hcolon; decide
            · exact k2 c (by simp [hc])
            · exact k2 c (by simp [hc])
          · simp at h
      · simp at h
  · simp at h

/-- A value accepted by the model of `time.Parse(time.RFC3339Nano, ·)` holds
no whitespace character. -/
theorem timeParseRFC3339Nano_no_whitespace (value : Bytes)
    (h : timeParseRFC3339Nano value = true) : ∀ c ∈ value, c.isWhitespace = false := by
  unfold timeParseRFC3339Nano at h
  split at h
  · rename_i y1 y2 y3 y4 v1
    split at h
    · simp at h
    · rename_i hy
      simp only [Bool.not_eq_true, Bool.not_eq_false', Bool.not_eq_false, Bool.and_eq_true] at hy
      simp only at h
      split at h
      · simp at h
      · rename_i month v2 hmonth
        split at h
        · simp at h
        · split at h
          · simp at h
          · rename_i day v3 hday
            split at h
            · simp at h
            · rename_i hour v4 hhour
              split at h
              · simp at h
              · split at h
                · simp at h
                · rename_i min v5 hmin
                  split at h
                  · simp at h
                  · split at h
                    · simp at h
                    · rename_i sec v6 hsec
                      split at h
                      · simp at h
                      · split at h
                        · rename_i hzone
                          obtain ⟨p1, e1, d1⟩ :=
                            skip_getnum_digits _ _ _ _ _ (by decide) hmonth
                          obtain ⟨p2, e2, d2⟩ :=
                            skip_getnum_digits _ _ _ _ _ (by decide) hday
                          obtain ⟨p3, e3, d3⟩ :=
                            skip_getnum_digits _ _ _ _ _ (by decide) hhour
                          obtain ⟨p4, e4, d4⟩ :=
                            skip_getnum_digits _ _ _ _ _ (by decide) hmin
                          obtain ⟨p5, e5, d5⟩ :=
                            skip_getnum_digits _ _ _ _ _ (by decide) hsec
                          obtain ⟨p6, e6, d6⟩ := skipFracSecond_digits v6
                          have d7 := skipZone_chars _ hzone
                          have hy1 : y1.isWhitespace = false := isDigit_zero _ _ hy.1.1.1
                          have hy2 : y2.isWhitespace = false := isDigit_one _ _ _ hy.1.1.2
                          have hy3 : y3.isWhitespace = false := by
                            have := hy.1.2
                            simp only [isDigit, List.get?_cons_succ, List.get?_cons_zero,
                              Bool.and_eq_true, decide_eq_true_eq] at this
                            exact digit_not_whitespace _ this.1 this.2
                          have hy4 : y4.isWhitespace = false := by
                            have := hy.2
                            simp only [isDigit, List.get?_cons_succ, List.get?_cons_zero,
                              Bool.and_eq_true, decide_eq_true_eq] at this
                            exact digit_not_whitespace _ this.1 this.2
                          intro c hc
                          rw [e1, e2, e3, e4, e5, e6] at hc
                          simp only [List.mem_cons, List.mem_append] at hc
                          rcases hc with hc | hc | hc | hc | hc | hc | hc | hc | hc | hc | hc
                          · rw [hc]; exact hy1
                          · rw [hc]; exact hy2
                          · rw [hc]; exact hy3
                          · rw [hc]; exact hy4
                          · exact d1 c hc
                          · exact d2 c hc
                          · exact d3 c hc
                          · exact d4 c hc
                          · exact d5 c hc
                          · exact d6 c hc
                          · exact d7 c hc
                        · simp at h
  · simp at h

theorem specLeadingToken_take (message : Bytes) (index : Nat)
    (hi : IndexAny message " ".toList = some index)
    (hw : ∀ c ∈ message.take index, c.isWhitespace = false) :
    specLeadingToken message = some (message.take index) := by
  induction message generalizing index with
  | nil => simp [IndexAny] at hi
  | cons c cs ih =>
    rw [IndexAny] at hi
    split at hi
    · rename_i hc
      simp only [Option.some.injEq] at hi
      subst hi
      have : c = ' ' := by simpa [String.toList] using hc
      subst this
      rfl
    · split at hi
      · rename_i j hj
        simp only [Option.some.injEq] at hi
        subst hi
        have hc : c.isWhitespace = false := hw c (by simp)
        have := ih j hj (fun x hx => hw x (by simp [hx]))
        simp [specLeadingToken, hc, this]
      · simp at hi

/-- The reading of C3 with the token delimited by whitespace, for `time.Parse`
as modelled: when the text of the message before its first whitespace
character is not a valid timestamp, the frame has no `id:` write. -/
theorem frameWrites_no_id_whitespace (stamp message : Bytes)
    (hbad : ∀ tok, specLeadingToken message = some tok → timeParseRFC3339Nano tok = false) :
    frameWrites (goRuntime stamp) message
      = [.write ("data: ".toList ++ message), .write "\n".toList, .flush] := by
  cases hi : IndexAny message " ".toList with
  | none =>
    simp only [frameWrites, idWrite, hi, List.singleton_append, List.nil_append]
  | some index =>
    have hrej : timeParseRFC3339Nano (message.take index) = false := by
      cases hp : timeParseRFC3339Nano (message.take index) with
      | false => rfl
      | true =>
        have := hbad _ (specLeadingToken_take message index hi
          (timeParseRFC3339Nano_no_whitespace _ hp))
        rw [hp] at this
        exact this
    simp only [frameWrites, idWrite, hi, goRuntime, hrej, List.singleton_append,
      List.nil_append, Bool.false_eq_true, ↓reduceIte]

end Web
